import Mathlib

/-!
# Verification of the scheduling and virtual-memory core

Shallow embedding of the stride scheduler (`src/os/src/task/manager.rs`),
the three-level page table and its translation/`mmap`/`munmap` services
(`src/os/src/mm/page_table.rs`), and the task-accounting update
(`src/os/src/task/task.rs`, `src/os/src/task/processor.rs`), together with
theorems settling the frozen claims about them.

Machine integers are modelled as `Nat`/`Int` with explicit wrapping where
overflow matters.  Rust `panic!`/`unwrap` failures are modelled as an
explicit "panicked" outcome (`Option.none` or a dedicated constructor),
distinct from an ordinary error return value.
-/

namespace OsCore

/-! ## Stride scheduler (`task/manager.rs`) -/

/-- One ready-queue entry of `TaskManager` (`Arc<TaskControlBlock>`).
`id` stands for the `Arc` pointer identity used by `Arc::ptr_eq`;
`stride` and `priority` are the `isize` scheduling fields read through
`inner_exclusive_access()` (manager.rs lines 33-34, 50). -/
structure TCB where
  id : Nat
  stride : Int
  priority : Int
deriving DecidableEq, Repr

/-- Constant `BIG_STRIDE: isize = 0x10000000` (manager.rs line 12). -/
def BIG_STRIDE : Int := 0x10000000

/-- Two's-complement wrap-around of 64-bit `isize` arithmetic. -/
def wrapIsize (x : Int) : Int := (x + 2 ^ 63) % 2 ^ 64 - 2 ^ 63

/-- The minimum scan of `fetch_min_step_and_add_pass` (manager.rs lines 37-43):
starting from a current minimum, each queue element replaces it only when its
`stride` is strictly smaller, so the earliest element among equal strides wins. -/
def minScan (init : TCB) (q : List TCB) : TCB :=
  q.foldl (fun m t => if t.stride < m.stride then t else m) init

/-- Embedding of `self.ready_queue.iter().position(|t| Arc::ptr_eq(t, &min_tcb))`
(manager.rs line 45): index of the first element satisfying the test. -/
def position (p : TCB → Bool) : List TCB → Option Nat
  | [] => none
  | t :: ts => if p t then some 0 else (position p ts).map (· + 1)

/-- Outcome of `TaskManager::fetch_min_step_and_add_pass`:
either the call panics, or it finishes with the mutated ready queue and
its `Option<Arc<TaskControlBlock>>` return value. -/
inductive FetchResult where
  | panicked : FetchResult
  | ok (queue : List TCB) (ret : Option TCB) : FetchResult
deriving DecidableEq, Repr

/-- Embedding of `TaskManager::fetch_min_step_and_add_pass`
(manager.rs lines 31-56).

* `self.ready_queue[0]` on an empty queue is an out-of-bounds index,
  hence `panicked`.
* The scan (lines 37-43) starts from `ready_queue[0]` and keeps the first
  element of minimal `stride`.
* Lines 45-47 remove the first entry pointer-equal to the selected one.
* Line 50 bumps the selected entry's stride by `BIG_STRIDE / priority`
  (Rust `isize` division truncates toward zero and panics on a zero
  divisor; the wrap models two's-complement overflow of the addition).
* The selected task is always returned as `Some` (line 55). -/
def fetchMinStepAndAddPass (q : List TCB) : FetchResult :=
  match q with
  | [] => .panicked
  | first :: _ =>
    let minTcb := minScan first q
    let q' :=
      match position (fun t => t.id == minTcb.id) q with
      | some i => q.eraseIdx i
      | none => q
    if minTcb.priority = 0 then .panicked
    else
      .ok q' (some { minTcb with
        stride := wrapIsize (minTcb.stride + Int.tdiv BIG_STRIDE minTcb.priority) })

/-! ### Helper lemmas for the scheduler -/

theorem minScan_cons (init t : TCB) (ts : List TCB) :
    minScan init (t :: ts) = minScan (if t.stride < init.stride then t else init) ts := rfl

/-- The fold of the minimum scan returns the first element of `init :: l`
attaining the minimal stride. -/
theorem minScan_firstMin : ∀ (l : List TCB) (init : TCB) (k : Nat)
    (hk : k < (init :: l).length)
    (_hmin : ∀ j (hj : j < (init :: l).length),
      ((init :: l).get ⟨k, hk⟩).stride ≤ ((init :: l).get ⟨j, hj⟩).stride)
    (_hfirst : ∀ j (hj : j < k),
      ((init :: l).get ⟨k, hk⟩).stride
        < ((init :: l).get ⟨j, Nat.lt_trans hj hk⟩).stride),
    minScan init l = (init :: l).get ⟨k, hk⟩ := by
  intro l
  induction l with
  | nil =>
    intro init k hk hmin hfirst
    have hk0 : k = 0 := by simp at hk; omega
    subst hk0
    simp [minScan]
  | cons u us ih =>
    intro init k hk hmin hfirst
    rw [minScan_cons]
    match k with
    | 0 =>
      have hu : ¬ u.stride < init.stride := by
        have := hmin 1 (by simp)
        simp only [List.get_eq_getElem, List.getElem_cons_zero,
          List.getElem_cons_succ] at this
        exact Int.not_lt.mpr this
      rw [if_neg hu]
      refine ih init 0 (by simp) ?_ ?_
      · intro j hj
        match j with
        | 0 => simp
        | j + 1 =>
          have := hmin (j + 2) (by simpa using hj)
          simpa using this
      · intro j hj; omega
    | 1 =>
      have hu : u.stride < init.stride := by
        have := hfirst 0 (by omega)
        simpa using this
      rw [if_pos hu]
      refine ih u 0 (by simp) ?_ ?_
      · intro j hj
        match j with
        | 0 => simp
        | j + 1 =>
          have := hmin (j + 2) (by simpa using hj)
          simpa using this
      · intro j hj; omega
    | k + 2 =>
      have hk2 : k < us.length := by simpa using hk
      have htgt : (init :: u :: us).get ⟨k + 2, hk⟩ = us.get ⟨k, hk2⟩ := by simp
      have hlt_init : (us.get ⟨k, hk2⟩).stride < init.stride := by
        have := hfirst 0 (by omega)
        rw [htgt] at this
        simpa using this
      have hlt_u : (us.get ⟨k, hk2⟩).stride < u.stride := by
        have := hfirst 1 (by omega)
        rw [htgt] at this
        simpa using this
      rw [htgt]
      have hnewlt : (us.get ⟨k, hk2⟩).stride
          < (if u.stride < init.stride then u else init).stride := by
        by_cases h : u.stride < init.stride
        · rw [if_pos h]; exact hlt_u
        · rw [if_neg h]; exact hlt_init
      refine ih (if u.stride < init.stride then u else init) (k + 1)
        (by simpa using hk) ?_ ?_
      · intro j hj
        match j with
        | 0 =>
          simp only [List.get_eq_getElem, List.getElem_cons_succ,
            List.getElem_cons_zero]
          simp only [List.get_eq_getElem] at hnewlt
          exact Int.le_of_lt hnewlt
        | j + 1 =>
          have := hmin (j + 2) (by simpa using hj)
          rw [htgt] at this
          simpa using this
      · intro j hj
        match j with
        | 0 =>
          simp only [List.get_eq_getElem, List.getElem_cons_succ,
            List.getElem_cons_zero]
          simpa using hnewlt
        | j + 1 =>
          have := hfirst (j + 2) (by omega)
          rw [htgt] at this
          simpa using this

/-- Under distinct pointer identities, the position scan for the identity of
the `k`-th element finds exactly index `k`. -/
theorem position_id_nodup : ∀ (q : List TCB) (k : Nat) (hk : k < q.length),
    (q.map TCB.id).Nodup →
    position (fun t => t.id == (q.get ⟨k, hk⟩).id) q = some k := by
  intro q
  induction q with
  | nil => intro k hk; simp at hk
  | cons t ts ih =>
    intro k hk hnd
    match k with
    | 0 => simp [position]
    | k + 1 =>
      have hk2 : k < ts.length := by simpa using hk
      have hmem : (ts.get ⟨k, hk2⟩).id ∈ ts.map TCB.id := by
        exact List.mem_map_of_mem TCB.id (ts.get_mem k hk2)
      have hhead : t.id ∉ ts.map TCB.id :=
        (List.nodup_cons.mp (by simpa using hnd)).1
      have hne : (t.id == ((t :: ts).get ⟨k + 1, hk⟩).id) = false := by
        apply beq_eq_false_iff_ne.mpr
        intro h
        have : (t :: ts).get ⟨k + 1, hk⟩ = ts.get ⟨k, hk2⟩ := by simp
        rw [this] at h
        exact hhead (h ▸ hmem)
      have htl : (ts.map TCB.id).Nodup :=
        (List.nodup_cons.mp (by simpa using hnd)).2
      have hstep : (t :: ts).get ⟨k + 1, hk⟩ = ts.get ⟨k, hk2⟩ := by simp
      simp only [position, hne, if_false, Bool.false_eq_true]
      rw [hstep]
      rw [ih k hk2 htl]
      rfl

theorem wrapIsize_eq_of_range (x : Int) (hlo : -2 ^ 63 ≤ x) (hhi : x < 2 ^ 63) :
    wrapIsize x = x := by
  unfold wrapIsize
  omega

/-! ### Claim C1 -/

/-- Claim C1: for every non-empty ready queue,
`fetch_min_step_and_add_pass` selects the task whose stride is numerically
smallest, first match in scan order on ties (hypotheses `hmin`/`hfirst` say
index `k` is the first position attaining the minimal stride); it removes
exactly that entry (`eraseIdx k`, leaving every other task and their
relative order unchanged), and returns it with its stride increased by
`BIG_STRIDE / priority` (truncating integer division; the range hypotheses
discharge the `isize` wrap-around). -/
theorem C1_stride_fetch (q : List TCB) (k : Nat) (hk : k < q.length)
    (hnd : (q.map TCB.id).Nodup)
    (hmin : ∀ j (hj : j < q.length),
      (q.get ⟨k, hk⟩).stride ≤ (q.get ⟨j, hj⟩).stride)
    (hfirst : ∀ j (hj : j < k),
      (q.get ⟨k, hk⟩).stride < (q.get ⟨j, Nat.lt_trans hj hk⟩).stride)
    (hpri : (q.get ⟨k, hk⟩).priority ≠ 0)
    (hlo : -2 ^ 63 ≤ (q.get ⟨k, hk⟩).stride
      + Int.tdiv BIG_STRIDE (q.get ⟨k, hk⟩).priority)
    (hhi : (q.get ⟨k, hk⟩).stride
      + Int.tdiv BIG_STRIDE (q.get ⟨k, hk⟩).priority < 2 ^ 63) :
    fetchMinStepAndAddPass q = .ok (q.eraseIdx k)
      (some { q.get ⟨k, hk⟩ with
        stride := (q.get ⟨k, hk⟩).stride
          + Int.tdiv BIG_STRIDE (q.get ⟨k, hk⟩).priority }) := by
  match q, hk with
  | first :: rest, hk =>
    have hscan : minScan first (first :: rest) = (first :: rest).get ⟨k, hk⟩ := by
      rw [minScan_cons, if_neg (lt_irrefl first.stride)]
      exact minScan_firstMin rest first k hk hmin hfirst
    have hpos : position (fun t => t.id == ((first :: rest).get ⟨k, hk⟩).id)
        (first :: rest) = some k := position_id_nodup (first :: rest) k hk hnd
    show fetchMinStepAndAddPass (first :: rest) = _
    simp only [fetchMinStepAndAddPass]
    rw [hscan, hpos, if_neg hpri, wrapIsize_eq_of_range _ hlo hhi]

/-- Witness for C1: queue of three tasks with strides 5, 3, 3; the first
minimal-stride entry (index 1, priority 4) is selected, removed, and its
stride grows by `0x10000000 / 4`. -/
theorem C1_stride_fetch_witness :
    fetchMinStepAndAddPass [⟨10, 5, 2⟩, ⟨11, 3, 4⟩, ⟨12, 3, 7⟩]
      = .ok [⟨10, 5, 2⟩, ⟨12, 3, 7⟩] (some ⟨11, 3 + Int.tdiv BIG_STRIDE 4, 4⟩) :=
  C1_stride_fetch [⟨10, 5, 2⟩, ⟨11, 3, 4⟩, ⟨12, 3, 7⟩] 1 (by decide) (by decide)
    (by decide) (by decide) (by decide) (by decide) (by decide)

/-! ### Claim C2 -/

/-- Claim C2 is a code bug: the claim (and the spec) say the stride fetch
returns "no task" on an empty Ready Set.  The code instead evaluates
`self.ready_queue[0]` (manager.rs line 32) before any emptiness check, an
out-of-bounds index, i.e. a kernel panic — even though the caller
`run_tasks` (processor.rs lines 97, 112-114) has an explicit `else` branch
waiting for the `None` that can never be produced. -/
theorem C2_empty_fetch_panics : fetchMinStepAndAddPass [] = .panicked := rfl

/-! ## Page table (`mm/page_table.rs`)

Physical memory is modelled as a function `mem : ppn → index → pte-bits`
giving the 512-entry page-table view of every frame.  The Frame Provider
(external, spec section 6) is a pool of free physical page numbers. -/

/-- Machine state for the memory subsystem: physical memory (page-table
view of each frame) plus the external Frame Provider's free pool. -/
structure MMState where
  mem : Nat → Nat → Nat
  pool : List Nat

/-- Point update of physical memory: write pte `v` at entry `i` of frame `p`. -/
def memSet (m : Nat → Nat → Nat) (p i v : Nat) : Nat → Nat → Nat :=
  fun q j => if q = p ∧ j = i then v else m q j

/-- Modelled from the spec: the external Frame Provider
(`allocate_frame() -> Option<FrameHandle>`, spec section 6; `frame_alloc` in
the repository's `mm/frame_allocator.rs`, which is not under `src/`).
Allocation hands out the next free physical page number and clears the new
frame, so that a fresh directory frame holds only invalid entries. -/
def frameAlloc (s : MMState) : Option (Nat × MMState) :=
  match s.pool with
  | [] => none
  | p :: rest =>
    some (p, { mem := fun q j => if q = p then 0 else s.mem q j, pool := rest })

/-- `PageTableEntry::new` (page_table.rs lines 54-58): `ppn.0 << 10 |
flags.bits as usize`.  `flags.bits` is a `u8` (hence the `% 256`), and the
shifted ppn and the flag byte occupy disjoint bit ranges, so the bitwise
or is addition. -/
def pteNew (ppn flags : Nat) : Nat := ppn * 1024 + flags % 256

/-- `PageTableEntry::ppn` (page_table.rs lines 64-66): `bits >> 10 &
((1 << 44) - 1)`; shifting right by 10 is division by 1024 and masking the
low 44 bits is reduction mod `2 ^ 44`. -/
def ppnOf (bits : Nat) : Nat := bits / 1024 % 2 ^ 44

/-- `PageTableEntry::flags` (page_table.rs lines 68-70): `bits as u8`. -/
def flagsOf (bits : Nat) : Nat := bits % 256

/-- `PageTableEntry::is_valid` (page_table.rs lines 72-74): flag bit V is
bit 0, so the entry is valid iff the bits are odd. -/
def pteIsValid (bits : Nat) : Bool := bits % 2 == 1

/-- Modelled from the spec: `VirtPageNum::indexes` lives in
`mm/address.rs`, which is not under `src/`; per spec section 3 a VPN
decomposes into three 9-bit indices, most-significant level first.
`idx0` is the level-0 (root) index. -/
def idx0 (vpn : Nat) : Nat := vpn / 2 ^ 18 % 512

/-- Modelled from the spec: middle-level 9-bit index of a VPN. -/
def idx1 (vpn : Nat) : Nat := vpn / 2 ^ 9 % 512

/-- Modelled from the spec: leaf-level 9-bit index of a VPN. -/
def idx2 (vpn : Nat) : Nat := vpn % 512

/-- One intermediate level of `PageTable::find_pte_create`
(page_table.rs lines 117-128): follow a valid entry, or allocate a fresh
directory frame, install it with flag V, and follow it.  `none` models the
`frame_alloc().unwrap()` panic when no frame is available. -/
def walkCreateStep (s : MMState) (ppn idx : Nat) : Option (MMState × Nat) :=
  let pte := s.mem ppn idx
  if pteIsValid pte then some (s, ppnOf pte)
  else
    match frameAlloc s with
    | none => none
    | some (f, s1) => some ({ s1 with mem := memSet s1.mem ppn idx (pteNew f 1) }, f)

/-- `PageTable::find_pte_create` (page_table.rs lines 113-131): walk the
two intermediate levels (creating missing directories) and return the
location `(frame, index)` of the leaf entry.  `none` models a panic of
`frame_alloc().unwrap()` inside the walk. -/
def findPteCreate (s : MMState) (root vpn : Nat) : Option (MMState × Nat × Nat) :=
  match walkCreateStep s root (idx0 vpn) with
  | none => none
  | some (s1, p1) =>
    match walkCreateStep s1 p1 (idx1 vpn) with
    | none => none
    | some (s2, p2) => some (s2, p2, idx2 vpn)

/-- `PageTable::find_pte` (page_table.rs lines 133-149): read-only walk;
returns the leaf location if both intermediate entries are valid
(the leaf entry itself is returned regardless of its own validity). -/
def findPte (s : MMState) (root vpn : Nat) : Option (Nat × Nat) :=
  let pte0 := s.mem root (idx0 vpn)
  if pteIsValid pte0 then
    let pte1 := s.mem (ppnOf pte0) (idx1 vpn)
    if pteIsValid pte1 then some (ppnOf pte1, idx2 vpn) else none
  else none

/-- `PageTable::map` (page_table.rs lines 152-161): walk/create to the
leaf; if the leaf is already valid return `-1` without writing, otherwise
store `PageTableEntry::new(ppn, flags | V)` and return `0`.  `none` models
the panic of `find_pte_create`'s internal `unwrap` on frame exhaustion. -/
def mapVpn (s : MMState) (root vpn ppn flags : Nat) : Option (MMState × Int) :=
  match findPteCreate s root vpn with
  | none => none
  | some (s1, p, i) =>
    if pteIsValid (s1.mem p i) then some (s1, -1)
    else some ({ s1 with mem := memSet s1.mem p i (pteNew ppn (flags ||| 1)) }, 0)

/-- `PageTable::unmap` (page_table.rs lines 164-173): `none` models the
panic of `self.find_pte(vpn).unwrap()` when the walk fails; an invalid
leaf returns `-1`; otherwise the leaf is cleared to the empty entry. -/
def unmapVpn (s : MMState) (root vpn : Nat) : Option (MMState × Int) :=
  match findPte s root vpn with
  | none => none
  | some (p, i) =>
    if pteIsValid (s.mem p i) then some ({ s with mem := memSet s.mem p i 0 }, 0)
    else some (s, -1)

/-- `PageTable::translate` (page_table.rs lines 175-177). -/
def translate (s : MMState) (root vpn : Nat) : Option Nat :=
  (findPte s root vpn).map (fun loc => s.mem loc.1 loc.2)

/-- `PageTable::from_token` (page_table.rs lines 106-111): the root ppn is
the low 44 bits of the token, i.e. the token mod `2 ^ 44`. -/
def rootOfToken (satp : Nat) : Nat := satp % 2 ^ 44

/-- `PageTable::token` (page_table.rs lines 179-181): `8usize << 60 |
root_ppn`; for a root below `2 ^ 44` the two fields are disjoint, so the
bitwise or is addition. -/
def tokenOf (root : Nat) : Nat := 8 * 2 ^ 60 + root

/-! ### Page-table entry helper lemmas -/

theorem pteNew_ppnOf (ppn f : Nat) (hp : ppn < 2 ^ 44) (hf : f < 256) :
    ppnOf (pteNew ppn f) = ppn := by
  unfold ppnOf pteNew
  omega

theorem pteNew_flagsOf (ppn f : Nat) (hf : f < 256) :
    flagsOf (pteNew ppn f) = f := by
  unfold flagsOf pteNew
  omega

theorem or_one_lt_256 (f : Nat) (hf : f < 256) : f ||| 1 < 256 := by
  have : f ||| 1 < 2 ^ 8 := Nat.or_lt_two_pow (by norm_num at hf ⊢; omega) (by norm_num)
  simpa using this

/-! ### Claim C5 -/

/-- Claim C5: a successful `map(vpn, ppn, flags)` stores
`PageTableEntry::new(ppn, flags | V)` at the leaf, and a subsequent
`translate(vpn)` returns a PTE whose PPN equals the supplied `ppn` and
whose flag set is exactly the supplied flags plus Valid.  The hypotheses
name the leaf location `(p2, idx2 vpn)` produced by the create-walk,
require the walked path in the post-walk state `s1` to be a sane directory
chain (valid intermediate entries leading to the leaf), and require the
leaf slot to be distinct from the two directory slots on its own path —
true of every real page table, where directory frames are distinct
physical pages. -/
theorem C5_map_then_translate (s s1 : MMState) (root vpn ppn flags p2 : Nat)
    (hflags : flags < 256) (hppn : ppn < 2 ^ 44)
    (hfc : findPteCreate s root vpn = some (s1, p2, idx2 vpn))
    (hleaf : pteIsValid (s1.mem p2 (idx2 vpn)) = false)
    (hv0 : pteIsValid (s1.mem root (idx0 vpn)) = true)
    (hv1 : pteIsValid (s1.mem (ppnOf (s1.mem root (idx0 vpn))) (idx1 vpn)) = true)
    (hp2 : ppnOf (s1.mem (ppnOf (s1.mem root (idx0 vpn))) (idx1 vpn)) = p2)
    (hal0 : ¬(root = p2 ∧ idx0 vpn = idx2 vpn))
    (hal1 : ¬(ppnOf (s1.mem root (idx0 vpn)) = p2 ∧ idx1 vpn = idx2 vpn)) :
    mapVpn s root vpn ppn flags
      = some ({ s1 with mem := memSet s1.mem p2 (idx2 vpn) (pteNew ppn (flags ||| 1)) }, 0)
    ∧ translate { s1 with mem := memSet s1.mem p2 (idx2 vpn) (pteNew ppn (flags ||| 1)) }
        root vpn = some (pteNew ppn (flags ||| 1))
    ∧ ppnOf (pteNew ppn (flags ||| 1)) = ppn
    ∧ flagsOf (pteNew ppn (flags ||| 1)) = flags ||| 1 := by
  have hor : flags ||| 1 < 256 := or_one_lt_256 flags hflags
  refine ⟨?_, ?_, pteNew_ppnOf ppn _ hppn hor, pteNew_flagsOf ppn _ hor⟩
  · simp only [mapVpn, hfc]
    simp [hleaf]
  · simp [translate, findPte, memSet, hal0, hal1, hv0, hv1, hp2]

/-- Concrete state for the C5 witness: empty page table rooted at frame
100, two free frames for the intermediate directories. -/
def sC5 : MMState := { mem := fun _ _ => 0, pool := [300, 400] }

/-- State after the create-walk of the C5 witness. -/
def sC5m : MMState := ((findPteCreate sC5 100 5).map Prod.fst).getD sC5

/-- Witness for C5: mapping vpn 5 to ppn 77 with flags R|W (6) in an empty
table rooted at 100 succeeds and translates back to exactly ppn 77 with
flags R|W|V. -/
theorem C5_map_then_translate_witness :
    mapVpn sC5 100 5 77 6
      = some ({ sC5m with mem := memSet sC5m.mem 400 (idx2 5) (pteNew 77 (6 ||| 1)) }, 0)
    ∧ translate { sC5m with mem := memSet sC5m.mem 400 (idx2 5) (pteNew 77 (6 ||| 1)) }
        100 5 = some (pteNew 77 (6 ||| 1))
    ∧ ppnOf (pteNew 77 (6 ||| 1)) = 77
    ∧ flagsOf (pteNew 77 (6 ||| 1)) = 6 ||| 1 :=
  C5_map_then_translate sC5 sC5m 100 5 77 6 400 (by decide) (by decide) rfl
    (by decide) (by decide) (by decide) (by decide) (by decide) (by decide)

/-! ### Claim C6 -/

/-- Helper: `map` on a vpn whose leaf is already valid returns `-1` and
leaves the state untouched (the create-walk follows only valid entries, so
it allocates nothing). -/
theorem mapVpn_of_translate_valid (s : MMState) (root vpn ppn2 flags2 b : Nat)
    (htr : translate s root vpn = some b)
    (hv : pteIsValid b = true) :
    mapVpn s root vpn ppn2 flags2 = some (s, -1) := by
  have h0 : pteIsValid (s.mem root (idx0 vpn)) = true := by
    by_contra h0
    simp only [translate, findPte] at htr
    rw [if_neg h0] at htr
    simp at htr
  have h1 : pteIsValid (s.mem (ppnOf (s.mem root (idx0 vpn))) (idx1 vpn)) = true := by
    by_contra h1
    simp only [translate, findPte] at htr
    rw [if_pos h0, if_neg h1] at htr
    simp at htr
  have hb : s.mem (ppnOf (s.mem (ppnOf (s.mem root (idx0 vpn))) (idx1 vpn))) (idx2 vpn)
      = b := by
    simp only [translate, findPte] at htr
    rw [if_pos h0, if_pos h1] at htr
    simpa using htr
  simp [mapVpn, findPteCreate, walkCreateStep, h0, h1, hb, hv]

/-- Claim C6: if the leaf entry for `vpn` is already valid (observable via
`translate`), then `map(vpn, ppn2, flags2)` returns the error indicator
`-1` and leaves the machine state — in particular the existing leaf entry,
its PPN and flags — entirely unchanged. -/
theorem C6_remap_fails_unchanged (s : MMState) (root vpn ppn2 flags2 b : Nat)
    (htr : translate s root vpn = some b)
    (hv : pteIsValid b = true) :
    mapVpn s root vpn ppn2 flags2 = some (s, -1) :=
  mapVpn_of_translate_valid s root vpn ppn2 flags2 b htr hv

/-- Concrete state for the C6 witness: vpn 5 is already mapped to ppn 77. -/
def sC6 : MMState :=
  { mem := fun p i =>
      if p = 100 ∧ i = 0 then pteNew 101 1
      else if p = 101 ∧ i = 0 then pteNew 102 1
      else if p = 102 ∧ i = 5 then pteNew 77 15
      else 0,
    pool := [300] }

/-- Witness for C6: re-mapping the already-mapped vpn 5 fails with `-1`
and changes nothing. -/
theorem C6_remap_fails_unchanged_witness :
    mapVpn sC6 100 5 88 2 = some (sC6, -1) :=
  C6_remap_fails_unchanged sC6 100 5 88 2 (pteNew 77 15) (by decide) (by decide)

/-! ### Claim C7 -/

/-- Claim C7: after a successful `unmap(vpn)`, `translate(vpn)` no longer
observes any valid mapping for `vpn`: whatever entry it may still report
is the cleared (invalid) one, whose Valid bit is unset.  (Concretely, the
code clears the leaf to the all-zero empty entry, so `translate` returns
either `none` or the invalid zero entry.) -/
theorem pteIsValid_zero : pteIsValid 0 = false := rfl

theorem C7_unmap_then_translate (s s2 : MMState) (root vpn : Nat)
    (h : unmapVpn s root vpn = some (s2, 0)) :
    ∀ b, translate s2 root vpn = some b → pteIsValid b = false := by
  intro b htr
  rcases hfp : findPte s root vpn with _ | ⟨p, i⟩
  · simp only [unmapVpn, hfp] at h
    exact Option.noConfusion h
  · simp only [unmapVpn, hfp] at h
    by_cases hv : pteIsValid (s.mem p i) = true
    · rw [if_pos hv] at h
      have hs2 : s2 = { s with mem := memSet s.mem p i 0 } := by
        have h2 := (Option.some.injEq _ _).mp h
        exact ((Prod.mk.injEq _ _ _ _).mp h2).1.symm
      subst hs2
      simp only [findPte] at hfp
      by_cases g0 : pteIsValid (s.mem root (idx0 vpn)) = true
      case neg => rw [if_neg g0] at hfp; exact Option.noConfusion hfp
      rw [if_pos g0] at hfp
      by_cases g1 : pteIsValid (s.mem (ppnOf (s.mem root (idx0 vpn))) (idx1 vpn)) = true
      case neg => rw [if_neg g1] at hfp; exact Option.noConfusion hfp
      rw [if_pos g1] at hfp
      have hpi := (Option.some.injEq _ _).mp hfp
      have hp : ppnOf (s.mem (ppnOf (s.mem root (idx0 vpn))) (idx1 vpn)) = p :=
        ((Prod.mk.injEq _ _ _ _).mp hpi).1
      have hi : idx2 vpn = i := ((Prod.mk.injEq _ _ _ _).mp hpi).2
      by_cases c0 : root = p ∧ idx0 vpn = i
      · simp [translate, findPte, memSet, c0, pteIsValid_zero] at htr
      · by_cases c1 : ppnOf (s.mem root (idx0 vpn)) = p ∧ idx1 vpn = i
        · simp [translate, findPte, memSet, c0, c1, g0, pteIsValid_zero] at htr
        · have hb : b = 0 := by
            simp only [translate, findPte, memSet] at htr
            rw [if_neg c0, if_pos g0, if_neg c1, if_pos g1] at htr
            simp only [Option.map_some'] at htr
            rw [if_pos ⟨hp, hi⟩] at htr
            exact ((Option.some.injEq _ _).mp htr).symm
          subst hb
          rfl
    · rw [if_neg hv] at h
      have h2 := (Option.some.injEq _ _).mp h
      have h3 : (-1 : Int) = 0 := ((Prod.mk.injEq _ _ _ _).mp h2).2
      simp at h3

/-- Concrete state for the C7 witness: vpn 5 mapped to ppn 77. -/
def sC7 : MMState :=
  { mem := fun p i =>
      if p = 100 ∧ i = 0 then pteNew 101 1
      else if p = 101 ∧ i = 0 then pteNew 102 1
      else if p = 102 ∧ i = 5 then pteNew 77 15
      else 0,
    pool := [] }

/-- State after unmapping vpn 5 in the C7 witness state. -/
def sC7e : MMState := ((unmapVpn sC7 100 5).map Prod.fst).getD sC7

/-- Witness for C7: unmapping the mapped vpn 5 succeeds, and afterwards
`translate` observes no valid mapping. -/
theorem C7_unmap_then_translate_witness :
    unmapVpn sC7 100 5 = some (sC7e, 0)
    ∧ ∀ b, translate sC7e 100 5 = some b → pteIsValid b = false :=
  ⟨rfl, C7_unmap_then_translate sC7 sC7e 100 5 rfl⟩

/-! ## Byte-range translation (`translated_byte_buffer`, page_table.rs 185-209) -/

/-- Loop body of `translated_byte_buffer` (page_table.rs lines 191-207).
Each produced element `(ppn, lo, hi)` stands for the slice
`ppn.get_bytes_array()[lo..hi]`: `lo` is the start page offset, and `hi`
is `4096` when the chunk runs to the end of its page, else the end page
offset (lines 201-205).  `none` models the panic of
`page_table.translate(vpn).unwrap()` on an unmapped page (line 194), or
exhausted fuel — which cannot happen when the fuel is the byte length,
since every iteration consumes at least one byte. -/
def tbbLoop (s : MMState) (root fuel start e : Nat) : Option (List (Nat × Nat × Nat)) :=
  if start < e then
    match fuel with
    | 0 => none
    | f + 1 =>
      match translate s root (start / 4096) with
      | none => none
      | some bits =>
        let endVa := min ((start / 4096 + 1) * 4096) e
        let hi := if endVa % 4096 = 0 then 4096 else endVa % 4096
        match tbbLoop s root f endVa e with
        | none => none
        | some rest => some ((ppnOf bits, start % 4096, hi) :: rest)
  else some []

/-- `translated_byte_buffer(token, ptr, len)` (page_table.rs lines 185-209):
build the transient view from the token and walk `[ptr, ptr+len)`. -/
def translatedByteBuffer (s : MMState) (token ptr len : Nat) :
    Option (List (Nat × Nat × Nat)) :=
  tbbLoop s (rootOfToken token) len ptr (ptr + len)

theorem tbbLoop_succ (s : MMState) (root f start e : Nat) :
    tbbLoop s root (f + 1) start e =
      if start < e then
        match translate s root (start / 4096) with
        | none => none
        | some bits =>
          match tbbLoop s root f (min ((start / 4096 + 1) * 4096) e) e with
          | none => none
          | some rest =>
            some ((ppnOf bits, start % 4096,
              if min ((start / 4096 + 1) * 4096) e % 4096 = 0 then 4096
              else min ((start / 4096 + 1) * 4096) e % 4096) :: rest)
      else some [] := rfl

theorem tbbLoop_stop (s : MMState) (root fuel start e : Nat) (h : ¬ start < e) :
    tbbLoop s root fuel start e = some [] := by
  cases fuel with
  | zero => simp [tbbLoop, h]
  | succ f => simp [tbbLoop, h]

/-! ### Claim C8 -/

/-- Claim C8: when `[ptr, ptr+len)` crosses exactly one page boundary
(`hcross`) and both spanned pages are mapped, `translated_byte_buffer`
returns exactly two slices: the first runs from `ptr`'s page offset to the
end of its page (offset 4096, the page-aligned boundary), the second
starts at offset 0 of the next page; their lengths sum to `len`. -/
theorem C8_two_slices (s : MMState) (token ptr len b1 b2 : Nat)
    (hlen : 0 < len)
    (hcross : ptr / 4096 + 1 = (ptr + len - 1) / 4096)
    (h1 : translate s (rootOfToken token) (ptr / 4096) = some b1)
    (h2 : translate s (rootOfToken token) (ptr / 4096 + 1) = some b2) :
    translatedByteBuffer s token ptr len
      = some [(ppnOf b1, ptr % 4096, 4096), (ppnOf b2, 0, ptr % 4096 + len - 4096)]
    ∧ (4096 - ptr % 4096) + (ptr % 4096 + len - 4096) = len := by
  have hge : 4096 < ptr % 4096 + len := by omega
  have hle : ptr % 4096 + len ≤ 8192 := by omega
  refine ⟨?_, by omega⟩
  obtain ⟨f, rfl⟩ : ∃ f, len = f + 2 := ⟨len - 2, by omega⟩
  show tbbLoop s (rootOfToken token) (f + 2) ptr (ptr + (f + 2)) = _
  have harg : (ptr / 4096 + 1) * 4096 / 4096 = ptr / 4096 + 1 := by omega
  have hlt2 : (ptr / 4096 + 1) * 4096 < ptr + (f + 2) := by omega
  have hend2 : min ((ptr / 4096 + 1 + 1) * 4096) (ptr + (f + 2)) = ptr + (f + 2) := by
    omega
  have hbmod : (ptr / 4096 + 1) * 4096 % 4096 = 0 := by omega
  have hhi2 : (if (ptr + (f + 2)) % 4096 = 0 then 4096 else (ptr + (f + 2)) % 4096)
      = ptr % 4096 + (f + 2) - 4096 := by
    by_cases hz : (ptr + (f + 2)) % 4096 = 0
    · simp only [hz, if_true]
      omega
    · rw [if_neg hz]
      omega
  have hstop : tbbLoop s (rootOfToken token) f (ptr + (f + 2)) (ptr + (f + 2))
      = some [] := tbbLoop_stop _ _ _ _ _ (by omega)
  have step2 : tbbLoop s (rootOfToken token) (f + 1) ((ptr / 4096 + 1) * 4096)
      (ptr + (f + 2)) = some [(ppnOf b2, 0, ptr % 4096 + (f + 2) - 4096)] := by
    rw [tbbLoop_succ, if_pos hlt2, harg, hend2, hstop, hhi2, hbmod, h2]
  have hend1 : min ((ptr / 4096 + 1) * 4096) (ptr + (f + 2))
      = (ptr / 4096 + 1) * 4096 := by omega
  have hhi1 : (if (ptr / 4096 + 1) * 4096 % 4096 = 0 then 4096
      else (ptr / 4096 + 1) * 4096 % 4096) = 4096 := by
    simp [hbmod]
  rw [tbbLoop_succ, if_pos (show ptr < ptr + (f + 2) by omega), hend1, step2,
    hhi1, h1]

/-- Concrete state for the C8 witness: pages 1 and 2 mapped to frames 77
and 88. -/
def sC8 : MMState :=
  { mem := fun p i =>
      if p = 100 ∧ i = 0 then pteNew 101 1
      else if p = 101 ∧ i = 0 then pteNew 102 1
      else if p = 102 ∧ i = 1 then pteNew 77 15
      else if p = 102 ∧ i = 2 then pteNew 88 15
      else 0,
    pool := [] }

/-- Witness for C8: the 100-byte range starting 50 bytes before the
page-1/page-2 boundary splits into a 50-byte and a 50-byte slice at the
boundary. -/
theorem C8_two_slices_witness :
    translatedByteBuffer sC8 (tokenOf 100) 8142 100
      = some [(ppnOf (pteNew 77 15), 8142 % 4096, 4096),
              (ppnOf (pteNew 88 15), 0, 8142 % 4096 + 100 - 4096)]
    ∧ (4096 - 8142 % 4096) + (8142 % 4096 + 100 - 4096) = 100 :=
  C8_two_slices sC8 (tokenOf 100) 8142 100 (pteNew 77 15) (pteNew 88 15)
    (by decide) (by decide) (by decide) (by decide)

/-! ## The mmap / munmap services (`mm_map` / `mm_unmap`, page_table.rs 216-272)

The Frame Provider side of `allocate_free_ppn` (page_table.rs lines
211-214) is `frame_alloc().map(|frame| frame.ppn)`; the `FrameTracker`'s
lifetime and the provider's recycling policy live outside `src/`, so,
following the spec ("acquires a fresh frame from the Frame Provider and
maps it"), allocation is modelled as taking the next frame out of the
free pool. -/

/-- Loop body of `mm_map` (page_table.rs lines 224-244).  Note that the
code computes `vpn = start_va.floor()` and then calls `vpn.step()`
*before* mapping (lines 226-227, 235), so the page actually mapped in
each iteration is `sta / 4096 + 1`, one past the page containing `sta`.
The return value of `page_table.map` is discarded (line 235); only frame
exhaustion sets `result = -1` and breaks (lines 236-239).  `none` models a
panic inside `map`'s create-walk. -/
def mmMapLoop (root flags fuel : Nat) (s : MMState) (sta e : Nat) :
    Option (MMState × Int) :=
  if sta < e then
    match fuel with
    | 0 => none
    | f + 1 =>
      let vpn := sta / 4096 + 1
      let endVa := min (vpn * 4096) e
      match frameAlloc s with
      | none => some (s, -1)
      | some (ppn, s1) =>
        match mapVpn s1 root vpn ppn flags with
        | none => none
        | some (s2, _r) => mmMapLoop root flags f s2 endVa e
  else some (s, 0)

/-- `mm_map(token, start, len, port)` (page_table.rs lines 216-247): the
flags are `PTEFlags::from_usize((port << 1) | 0x09)` (line 217; the
`from_usize` cast truncates to `u8`), the page table is the transient
view of `token`, and the loop walks `[start, start+len)`.  Fuel `len`
bounds the iteration count (each iteration advances at least one byte). -/
def mmMap (s : MMState) (token start len port : Nat) : Option (MMState × Int) :=
  mmMapLoop (rootOfToken token) (((port <<< 1) ||| 9) % 256) len s start (start + len)

/-- Loop body of `mm_unmap` (page_table.rs lines 255-269).  The same
pre-stepped `vpn = sta / 4096 + 1` is unmapped (lines 257-258, 265); the
return value of `page_table.unmap` is discarded, so `result` is never set
to `-1`.  `none` models the `find_pte(vpn).unwrap()` panic inside
`unmap`. -/
def mmUnmapLoop (root fuel : Nat) (s : MMState) (sta e : Nat) :
    Option (MMState × Int) :=
  if sta < e then
    match fuel with
    | 0 => none
    | f + 1 =>
      let vpn := sta / 4096 + 1
      let endVa := min (vpn * 4096) e
      match unmapVpn s root vpn with
      | none => none
      | some (s1, _r) => mmUnmapLoop root f s1 endVa e
  else some (s, 0)

/-- `mm_unmap(token, start, len)` (page_table.rs lines 249-272). -/
def mmUnmap (s : MMState) (token start len : Nat) : Option (MMState × Int) :=
  mmUnmapLoop (rootOfToken token) len s start (start + len)

theorem mmMapLoop_succ (root flags f : Nat) (s : MMState) (sta e : Nat) :
    mmMapLoop root flags (f + 1) s sta e =
      if sta < e then
        match frameAlloc s with
        | none => some (s, -1)
        | some (ppn, s1) =>
          match mapVpn s1 root (sta / 4096 + 1) ppn flags with
          | none => none
          | some (s2, _r) =>
            mmMapLoop root flags f s2 (min ((sta / 4096 + 1) * 4096) e) e
      else some (s, 0) := rfl

/-! ### Claim C3 -/

/-- Concrete state for C3: empty page table rooted at frame 100, three
free frames. -/
def sC3 : MMState := { mem := fun _ _ => 0, pool := [200, 300, 400] }

/-- Claim C3 is a code bug.  The claim (and the spec) say
`mmap(token, start, len, port)` makes exactly the pages of
`[start, start+len)` valid, with flags = low 3 bits of `port` plus the
mandatory Valid and User bits.  On the concrete call
`mm_map(token(100), 0x1000, 0x1000, port = 3)` (one page, R|W requested):

* the page of the requested range (vpn 1) stays unmapped — its leaf entry
  is still the invalid empty entry — because the code steps the vpn
  before mapping (page_table.rs line 227);
* instead vpn 2 (one page past the range) becomes valid, and its flag
  byte is 15 = V|R|W|X, not the claimed V|U|R|W = 23: the constant `0x09`
  ored into the flags (line 217) is V|X, not V|U, so Execute is always
  granted and User never is;
* the call still reports success (0).

The same file's `translated_byte_buffer` (lines 192-195) translates the
un-stepped vpn, so a buffer in the "mapped" range would panic — the
pre-step and the `0x09` constant contradict the code's own intent. -/
theorem C3_mmap_wrong_page_and_flags :
    (mmMap sC3 (tokenOf 100) 4096 4096 3).map (fun r =>
        ((translate r.1 100 1).map pteIsValid,
         (translate r.1 100 2).map (fun b => (pteIsValid b, flagsOf b)),
         r.2))
      = some (some false, some (true, 15), 0) := by decide

/-! ### Claim C4 -/

/-- Concrete state for C4: vpn 2 already mapped to frame 77; two free
frames. -/
def sC4 : MMState :=
  { mem := fun p i =>
      if p = 100 ∧ i = 0 then pteNew 101 1
      else if p = 101 ∧ i = 0 then pteNew 102 1
      else if p = 102 ∧ i = 2 then pteNew 77 15
      else 0,
    pool := [200, 300] }

/-- Counterexample to C4: on `mm_map(token(100), 0x1000, 0x2000, 3)` the
loop's first iteration hits vpn 2, which is already mapped (and lies
inside `[start, start+len)`), yet the call does not stop and does not
return a negative result: `map`'s `-1` is discarded, the next page (vpn 3)
is still mapped, and the overall result is 0. -/
theorem C4_already_mapped_counterexample :
    (translate sC4 100 2).map pteIsValid = some true
    ∧ (mmMap sC4 (tokenOf 100) 4096 8192 3).map (fun r =>
        (r.2, (translate r.1 100 3).map pteIsValid))
      = some (0, some true) := by decide

/-- Claim C4 as amended: `mm_map` stops and returns `-1` only when no
frame is available (first conjunct: with an empty pool the iteration
returns `-1` immediately, handing back the state built so far — pages
mapped by earlier iterations stay mapped, no rollback).  An already-mapped
page does not abort the call: `map`'s error return is discarded, the
existing mapping survives untouched, and the loop proceeds to the next
page (second conjunct). -/
theorem C4_failure_behaviour (root flags sta e fuel : Nat) (s : MMState)
    (hlt : sta < e) :
    (s.pool = [] → mmMapLoop root flags (fuel + 1) s sta e = some (s, -1))
    ∧ (∀ ppn s1 b, frameAlloc s = some (ppn, s1) →
        translate s1 root (sta / 4096 + 1) = some b → pteIsValid b = true →
        mmMapLoop root flags (fuel + 1) s sta e
          = mmMapLoop root flags fuel s1 (min ((sta / 4096 + 1) * 4096) e) e) := by
  constructor
  · intro hpool
    rw [mmMapLoop_succ, if_pos hlt]
    have hfa : frameAlloc s = none := by
      simp [frameAlloc, hpool]
    rw [hfa]
  · intro ppn s1 b hfa htr hv
    rw [mmMapLoop_succ, if_pos hlt]
    simp only [hfa,
      mapVpn_of_translate_valid s1 root (sta / 4096 + 1) ppn flags b htr hv]

/-- Witness for C4: with an exhausted pool the call aborts with `-1` and
returns the state unchanged. -/
theorem C4_failure_behaviour_witness :
    mmMapLoop 100 15 1 { mem := sC4.mem, pool := [] } 4096 12288
      = some ({ mem := sC4.mem, pool := [] }, -1) :=
  (C4_failure_behaviour 100 15 4096 12288 0 { mem := sC4.mem, pool := [] }
    (by decide)).1 rfl

/-! ### Claim C9 -/

/-- Concrete states for C9: an entirely empty table (no directory path),
and a table with a valid path to vpn 5 whose leaf is invalid. -/
def sC9 : MMState := { mem := fun _ _ => 0, pool := [] }

/-- Valid directory path for vpn 5 but invalid (empty) leaf. -/
def sC9b : MMState :=
  { mem := fun p i =>
      if p = 100 ∧ i = 0 then pteNew 101 1
      else if p = 101 ∧ i = 0 then pteNew 102 1
      else 0,
    pool := [] }

/-- Counterexample to C9: the claim says every protocol violation —
including unmapping or translating an invalid page — returns a negative
value and never aborts.  But on a vpn whose directory path is missing,
`PageTable::unmap` evaluates `self.find_pte(vpn).unwrap()`
(page_table.rs line 165) and `translated_byte_buffer` evaluates
`page_table.translate(vpn).unwrap()` (line 194): both panic (modelled as
`none`) instead of returning a sentinel. -/
theorem C9_panic_counterexample :
    unmapVpn sC9 100 5 = none
    ∧ translatedByteBuffer sC9 (tokenOf 100) 5000 8 = none := ⟨rfl, rfl⟩

/-- Claim C9 as amended: failures that reach the returned value are
negative sentinels — `unmap` on a present-but-invalid leaf returns `-1`
(first conjunct), and `map` on an already-valid page returns `-1` (claim
C6) — but `unmap` on a vpn whose directory path is missing panics instead
of returning (second conjunct), and `mm_unmap` discards the per-page
sentinel entirely: it either panics or returns 0, never a negative value
(third conjunct). -/
theorem C9_failure_encoding :
    (∀ (s : MMState) (root vpn p i : Nat), findPte s root vpn = some (p, i) →
      pteIsValid (s.mem p i) = false → unmapVpn s root vpn = some (s, -1))
    ∧ (∀ (s : MMState) (root vpn : Nat), findPte s root vpn = none →
        unmapVpn s root vpn = none)
    ∧ (∀ (root fuel : Nat) (s : MMState) (sta e : Nat),
        mmUnmapLoop root fuel s sta e = none
        ∨ ∃ s1, mmUnmapLoop root fuel s sta e = some (s1, 0)) := by
  refine ⟨?_, ?_, ?_⟩
  · intro s root vpn p i hfp hinv
    simp only [unmapVpn, hfp]
    rw [if_neg (by simp [hinv])]
  · intro s root vpn hfp
    simp only [unmapVpn, hfp]
  · intro root fuel
    induction fuel with
    | zero =>
      intro s sta e
      by_cases h : sta < e
      · left
        simp [mmUnmapLoop, h]
      · right
        exact ⟨s, by simp [mmUnmapLoop, h]⟩
    | succ f ih =>
      intro s sta e
      by_cases h : sta < e
      · rcases hu : unmapVpn s root (sta / 4096 + 1) with _ | ⟨s1, r⟩
        · left
          simp [mmUnmapLoop, h, hu]
        · have hrec := ih s1 (min ((sta / 4096 + 1) * 4096) e) e
          have hstep : mmUnmapLoop root (f + 1) s sta e
              = mmUnmapLoop root f s1 (min ((sta / 4096 + 1) * 4096) e) e := by
            simp [mmUnmapLoop, h, hu]
          rw [hstep]
          exact hrec
      · right
        exact ⟨s, by simp [mmUnmapLoop, h]⟩

/-- Witness for C9: unmapping vpn 5 with a valid path but invalid leaf
returns the sentinel `-1` with the state unchanged. -/
theorem C9_failure_encoding_witness :
    unmapVpn sC9b 100 5 = some (sC9b, -1) :=
  C9_failure_encoding.1 sC9b 100 5 102 5 (by decide) (by decide)

/-! ## Task accounting (`task/task.rs`, `task/processor.rs`) -/

/-- `TaskStatus` (task.rs lines 20-29). -/
inductive TaskStatus where
  | unInit
  | ready
  | running
  | exited
deriving DecidableEq, Repr

/-- Modelled from the spec: `MAX_SYSCALL_NUM` comes from `config.rs`,
which is not under `src/`; the claims are stated relative to the
constant, whose concrete value (500 in this kernel family) does not
matter to them. -/
def MAX_SYSCALL_NUM : Nat := 500

/-- `TaskInfo` (task.rs lines 34-41): `syscall_times` is
`[u32; MAX_SYSCALL_NUM]`, modelled as a list of that length holding
values below `2 ^ 32`. -/
structure TaskInfo where
  status : TaskStatus
  syscallTimes : List Nat
  time : Nat

/-- `TaskInfo::set_status` (task.rs lines 55-57). -/
def TaskInfo.setStatus (info : TaskInfo) (st : TaskStatus) : TaskInfo :=
  { info with status := st }

/-- `TaskInfo::add_syscall_time` (task.rs lines 59-63): the guard
`index < MAX_SYSCALL_NUM` protects the array access; `+= 1` on a `u32`
wraps modulo `2 ^ 32`. -/
def TaskInfo.addSyscallTime (info : TaskInfo) (index : Nat) : TaskInfo :=
  if index < MAX_SYSCALL_NUM then
    { info with syscallTimes :=
        info.syscallTimes.set index ((info.syscallTimes.getD index 0 + 1) % 2 ^ 32) }
  else info

/-- The per-task state touched by `Processor::update_task_info`. -/
structure TaskData where
  taskStatus : TaskStatus
  taskInfo : TaskInfo

/-- `Processor::update_task_info` (processor.rs lines 49-57): `none`
models the `self.current().unwrap()` panic when there is no current task;
otherwise the current task's `task_info` records the task status and, if
`add_flag` is set, counts the syscall via `add_syscall_time`. -/
def updateTaskInfo (cur : Option TaskData) (syscall : Nat) (addFlag : Bool) :
    Option TaskData :=
  match cur with
  | none => none
  | some t =>
    let info1 := t.taskInfo.setStatus t.taskStatus
    let info2 := if addFlag then info1.addSyscallTime syscall else info1
    some { t with taskInfo := info2 }

/-! ### Claim C10 -/

/-- Claim C10: with a current task present, the accounting update
(`update_task_info` with counting requested, via `add_syscall_time`) is
total in the syscall id: an id at or above `MAX_SYSCALL_NUM` leaves every
counter unchanged (no out-of-bounds access), and an id below it bumps
exactly that counter (by one, modulo the `u32` width — exactly `+1`
whenever the counter does not overflow) and leaves all others unchanged. -/
theorem C10_syscall_accounting_total (t : TaskData) (id : Nat)
    (hlen : t.taskInfo.syscallTimes.length = MAX_SYSCALL_NUM) :
    ∀ t2, updateTaskInfo (some t) id true = some t2 →
      t2.taskInfo.syscallTimes.length = MAX_SYSCALL_NUM
      ∧ (MAX_SYSCALL_NUM ≤ id → t2.taskInfo.syscallTimes = t.taskInfo.syscallTimes)
      ∧ (id < MAX_SYSCALL_NUM →
          t2.taskInfo.syscallTimes.getD id 0
            = (t.taskInfo.syscallTimes.getD id 0 + 1) % 2 ^ 32
          ∧ (∀ j, j ≠ id →
              t2.taskInfo.syscallTimes.getD j 0 = t.taskInfo.syscallTimes.getD j 0)
          ∧ (t.taskInfo.syscallTimes.getD id 0 + 1 < 2 ^ 32 →
              t2.taskInfo.syscallTimes.getD id 0
                = t.taskInfo.syscallTimes.getD id 0 + 1)) := by
  intro t2 h
  have ht2 : t2 = { t with taskInfo :=
      (t.taskInfo.setStatus t.taskStatus).addSyscallTime id } := by
    simp only [updateTaskInfo, if_true] at h
    exact ((Option.some.injEq _ _).mp h).symm
  subst ht2
  by_cases hid : id < MAX_SYSCALL_NUM
  · refine ⟨?_, ?_, ?_⟩
    · simp [TaskInfo.addSyscallTime, TaskInfo.setStatus, hid, hlen]
    · intro hge
      exact absurd hge (by omega)
    · intro _
      have hidlen : id < t.taskInfo.syscallTimes.length := by omega
      refine ⟨?_, ?_, ?_⟩
      · simp [TaskInfo.addSyscallTime, TaskInfo.setStatus, hid,
          List.getElem?_set_self hidlen]
      · intro j hj
        simp [TaskInfo.addSyscallTime, TaskInfo.setStatus, hid,
          List.getElem?_set_ne (Ne.symm hj)]
      · intro hov
        simp only [List.getD_eq_getElem?_getD] at hov
        simp [TaskInfo.addSyscallTime, TaskInfo.setStatus, hid,
          List.getElem?_set_self hidlen]
        omega
  · refine ⟨?_, fun _ => ?_, fun hlt => absurd hlt hid⟩
    · simp [TaskInfo.addSyscallTime, TaskInfo.setStatus, hid, hlen]
    · simp [TaskInfo.addSyscallTime, TaskInfo.setStatus, hid]

/-- Concrete task for the C10 witness: all counters zero. -/
def tC10 : TaskData :=
  { taskStatus := .running,
    taskInfo :=
      { status := .ready, syscallTimes := List.replicate MAX_SYSCALL_NUM 0,
        time := 0 } }

/-- Result of the C10 witness update counting syscall 64. -/
def tC10r : TaskData := (updateTaskInfo (some tC10) 64 true).getD tC10

/-- Witness for C10: counting syscall 64 once preserves the counter array
length, bumps counter 64 from 0 to 1, and leaves every other counter
unchanged. -/
theorem C10_syscall_accounting_total_witness :
    tC10r.taskInfo.syscallTimes.length = MAX_SYSCALL_NUM
    ∧ (MAX_SYSCALL_NUM ≤ 64 →
        tC10r.taskInfo.syscallTimes = tC10.taskInfo.syscallTimes)
    ∧ (64 < MAX_SYSCALL_NUM →
        tC10r.taskInfo.syscallTimes.getD 64 0
          = (tC10.taskInfo.syscallTimes.getD 64 0 + 1) % 2 ^ 32
        ∧ (∀ j, j ≠ 64 →
            tC10r.taskInfo.syscallTimes.getD j 0
              = tC10.taskInfo.syscallTimes.getD j 0)
        ∧ (tC10.taskInfo.syscallTimes.getD 64 0 + 1 < 2 ^ 32 →
            tC10r.taskInfo.syscallTimes.getD 64 0
              = tC10.taskInfo.syscallTimes.getD 64 0 + 1)) :=
  C10_syscall_accounting_total tC10 64 (by simp [tC10]) tC10r rfl

end OsCore
